import Mathlib

/-!
Verification of the session-history manager and invocation pipeline of the
LLM-powered ACP agent (`llm_agent.py`).

The store keeps, per conversation id, a list of `(timestamp, message, is_user)`
entries.  `add_to_conversation_history` appends an entry and, when the length
exceeds `MAX_HISTORY_LENGTH`, evicts the oldest non-system entries: it keeps
every entry that is a `SystemMessage` with `is_user = False`, sorts the rest
newest-first, keeps the slice `[: MAX_HISTORY_LENGTH - len(system_messages)]`
(Python slice semantics: a negative bound drops elements from the end), and
finally re-sorts everything by timestamp ascending.

Timestamps come from `time.time()`; we model the clock explicitly as a natural
number that strictly increases with every append.
-/

namespace ACPAgent

/-- A stored message: Python's `SystemMessage` or `UserMessage`. -/
inductive Msg where
  | system (content : String)
  | user (content : String)
deriving DecidableEq

/-- `isinstance(msg, SystemMessage)`. -/
def Msg.isSystem : Msg → Bool
  | Msg.system _ => true
  | Msg.user _ => false

/-- One element of a conversation-history list: `(timestamp, message, is_user)`. -/
structure Entry where
  ts : Nat
  msg : Msg
  is_user : Bool
deriving DecidableEq

/-- The eviction predicate of `add_to_conversation_history`:
`isinstance(msg, SystemMessage) and not is_user`. -/
def Entry.isSys (e : Entry) : Bool := e.msg.isSystem && !e.is_user

/-- `MAX_HISTORY_LENGTH = 10` (module constant of `llm_agent.py`). -/
def MAX_HISTORY_LENGTH : Nat := 10

/-- `USE_MOCK_WHEN_RATE_LIMITED = True` (module constant of `llm_agent.py`). -/
def USE_MOCK_WHEN_RATE_LIMITED : Bool := true

/-- Stable insertion (ascending by timestamp) used to model Python's stable
`list.sort(key=lambda x: x[0])`. -/
def insertAsc (e : Entry) : List Entry → List Entry
  | [] => [e]
  | x :: xs => if x.ts < e.ts then x :: insertAsc e xs else e :: x :: xs

/-- `history.sort(key=lambda x: x[0])` — stable sort, ascending timestamps. -/
def sortAsc (l : List Entry) : List Entry := l.foldr insertAsc []

/-- Stable insertion (descending by timestamp) used to model Python's stable
`list.sort(key=lambda x: x[0], reverse=True)`. -/
def insertDesc (e : Entry) : List Entry → List Entry
  | [] => [e]
  | x :: xs => if e.ts < x.ts then x :: insertDesc e xs else e :: x :: xs

/-- `regular_messages.sort(key=lambda x: x[0], reverse=True)` — stable sort,
descending timestamps. -/
def sortDesc (l : List Entry) : List Entry := l.foldr insertDesc []

/-- Python's slice `xs[:k]` for an `int` bound `k`: a non-negative bound takes
the first `k` elements, a negative bound drops `-k` elements from the end. -/
def pySlice {α : Type} (xs : List α) (k : Int) : List α :=
  if 0 ≤ k then xs.take k.toNat else xs.take ((xs.length : Int) + k).toNat

/-- The eviction block of `add_to_conversation_history` (lines 63-80 of
`llm_agent.py`): keep the system messages, sort the rest newest-first, keep the
slice `[: H - len(system_messages)]`, and re-sort everything by timestamp. -/
def evictList (H : Nat) (h1 : List Entry) : List Entry :=
  sortAsc (h1.filter Entry.isSys ++
    pySlice (sortDesc (h1.filter (fun e => !e.isSys)))
      ((H : Int) - ((h1.filter Entry.isSys).length : Int)))

/-- The body of `add_to_conversation_history` on one session's list, with the
history bound `H` (`MAX_HISTORY_LENGTH` in the repository) made a parameter so
the configured-maximum scenarios of the spec can be stated directly. -/
def addHistory (H : Nat) (h : List Entry) (ts : Nat) (m : Msg) (u : Bool) : List Entry :=
  if (h ++ [Entry.mk ts m u]).length > H then evictList H (h ++ [Entry.mk ts m u])
  else h ++ [Entry.mk ts m u]

/-- The global `conversation_history` dict.  A never-seen conversation id maps
to `[]`, which coincides with the lazy-initialisation in the source. -/
abbrev Store := String → List Entry

def emptyStore : Store := fun _ => []

/-- `add_to_conversation_history(conversation_id, message, is_user)` acting on
the global store, with the timestamp (from `time.time()`) explicit. -/
def add_to_conversation_history (H : Nat) (st : Store) (cid : String) (ts : Nat)
    (m : Msg) (u : Bool) : Store :=
  fun c => if c = cid then addHistory H (st cid) ts m u else st c

/-- `get_conversation_messages(conversation_id)`: the stored messages without
timestamps or user flags; `[]` for an unknown conversation id. -/
def get_conversation_messages (st : Store) (cid : String) : List Msg :=
  (st cid).map Entry.msg

/-- One append operation issued against the store (session id, message, flag);
the timestamp is supplied by the global clock. -/
structure AppendOp where
  cid : String
  m : Msg
  u : Bool

/-- Apply a sequence of appends, timestamping each with a strictly increasing
clock (the model of successive `time.time()` calls). -/
def applyOps (H : Nat) : List AppendOp → Store × Nat → Store × Nat
  | [], s => s
  | op :: rest, (st, clock) =>
      applyOps H rest (add_to_conversation_history H st op.cid clock op.m op.u, clock + 1)

/-- Number of entries the eviction treats as system messages. -/
def sysCount (h : List Entry) : Nat := (h.filter Entry.isSys).length

/-! ## The invocation pipeline of `llm_assistant` -/

/-- Python's `str.lower()` on the ASCII texts the agent matches against. -/
def strLower (s : String) : String := String.mk (s.toList.map Char.toLower)

/-- The pattern matches at the head of the character list. -/
def charsLeading : List Char → List Char → Bool
  | [], _ => true
  | _ :: _, [] => false
  | p :: ps, c :: cs => p == c && charsLeading ps cs

/-- The pattern occurs somewhere in the character list. -/
def charsHas (pat : List Char) : List Char → Bool
  | [] => charsLeading pat []
  | c :: cs => charsLeading pat (c :: cs) || charsHas pat cs

/-- Python's substring test `pat in s`. -/
def strHas (s pat : String) : Bool := charsHas pat.toList s.toList

/-- Python's `s.startswith(pat)`. -/
def strBegins (s pat : String) : Bool := charsLeading pat.toList s.toList

/-- One typed content part of an inbound ACP message. -/
structure MessagePart where
  content_type : String
  content : String

/-- An inbound ACP message: an ordered sequence of typed parts. -/
structure InMessage where
  parts : List MessagePart

/-- Lines 150-153 of `llm_agent.py`: concatenate the contents of the
`text/plain` parts of a message, in order. -/
def extractContent (msg : InMessage) : String :=
  msg.parts.foldl
    (fun acc p => if p.content_type = "text/plain" then acc ++ p.content else acc) ""

/-- The outcome of one `client.complete` call: a completion text, or a raised
failure given by its string representation `str(e)` and the optional
`Retry-After` header of its response (`none` when the failure carries no
response or headers). -/
inductive CallOutcome where
  | success (text : String)
  | failure (emsg : String) (retryAfter : Option String)

/-- `"429" in error_str or "rate limit" in error_str`, applied to the
lowercased failure text. -/
def isRateLimitSignal (s : String) : Bool := strHas s "429" || strHas s "rate limit"

/-- The `mock_content` placeholder substituted when the call is rate limited
and `USE_MOCK_WHEN_RATE_LIMITED` holds (lines 222-236 of `llm_agent.py`). -/
def mockContent : String :=
  "[MOCK RESPONSE FOR EDUCATIONAL PURPOSES]\n\nThis is a simulated response since the GitHub AI API rate limit has been exceeded.\nIn a real application, you would need to implement proper rate limit handling.\n\nSome best practices for handling API rate limits:\n1. Implement exponential backoff and retry mechanisms\n2. Cache responses when possible\n3. Use a token bucket algorithm for client-side rate limiting\n4. Monitor your usage and adjust request patterns\n5. Consider implementing a queue system for high-volume applications\n\nFor this educational example, you can continue exploring the application, but responses\nwill be simulated until the rate limit resets.\n"

/-- The error-classification chain of the `except` handler
(lines 258-284 of `llm_agent.py`). -/
def classifyError (emsg : String) (retryAfter : Option String) : String :=
  if isRateLimitSignal (strLower emsg) then
    match retryAfter with
    | some r =>
        if r ≠ "" then
          "The GitHub AI API rate limit has been exceeded. Please try again in "
            ++ r ++ " seconds."
        else "The GitHub AI API rate limit has been exceeded. Please try again later."
    | none => "The GitHub AI API rate limit has been exceeded. Please try again later."
  else if strHas (strLower emsg) "timeout" then
    "The request timed out. This might be due to high server load or network issues."
  else if strHas (strLower emsg) "token" || strHas (strLower emsg) "authentication"
      || strHas (strLower emsg) "auth" then
    "There seems to be an authentication issue. Please check your GitHub token."
  else "Error calling GitHub AI model: " ++ emsg

/-- What the agent yields: a progress/debug thought, or a terminal ACP message
(`Message(role=..., parts=[MessagePart(content, "text/plain")])`). -/
inductive Event where
  | thought (text : String)
  | message (role : String) (content : String)
deriving DecidableEq

/-- A terminal response or error event (as opposed to a progress thought). -/
def Event.isTerminal : Event → Bool
  | Event.message _ _ => true
  | Event.thought _ => false

/-- The mutable state the pipeline threads: the history store and the clock
supplying `time.time()` values. -/
structure AgentState where
  hist : Store
  clock : Nat

/-- The progress thoughts yielded for each non-empty message before the
external call resolves (lines 167 and 187 of `llm_agent.py`). -/
def preThoughts : List Event :=
  [Event.thought "Processing request using GitHub AI model...",
   Event.thought "Sending messages to the GitHub AI API..."]

/-- Processing of one non-empty message (lines 159-295 of `llm_agent.py`):
append the user turn, then either store and yield the completion text, or —
when the failure is a rate-limit signal and mocks are enabled — store and
yield `mockContent`, or yield the classified error without storing a reply. -/
def processNonEmpty (useMock : Bool) (cid : String) (content : String)
    (o : CallOutcome) (st : AgentState) : AgentState × List Event :=
  let st1 : AgentState :=
    ⟨add_to_conversation_history MAX_HISTORY_LENGTH st.hist cid st.clock
        (Msg.user content) true, st.clock + 1⟩
  match o with
  | CallOutcome.success text =>
      (⟨add_to_conversation_history MAX_HISTORY_LENGTH st1.hist cid st1.clock
          (Msg.system text) false, st1.clock + 1⟩,
       preThoughts ++ [Event.message "agent" text])
  | CallOutcome.failure emsg ra =>
      if useMock && isRateLimitSignal (strLower emsg) then
        (⟨add_to_conversation_history MAX_HISTORY_LENGTH st1.hist cid st1.clock
            (Msg.system mockContent) false, st1.clock + 1⟩,
         preThoughts ++ [Event.message "agent" mockContent])
      else (st1, preThoughts ++ [Event.message "agent" (classifyError emsg ra)])

/-- The `for message in input` loop: empty messages are skipped outright, each
non-empty message is processed against the oracle outcome of its external
call. -/
def runBatch (useMock : Bool) (cid : String) :
    List (InMessage × CallOutcome) → AgentState → AgentState × List Event
  | [], st => (st, [])
  | (m, o) :: rest, st =>
      if extractContent m = "" then runBatch useMock cid rest st
      else
        let r1 := processNonEmpty useMock cid (extractContent m) o st
        let r2 := runBatch useMock cid rest r1.1
        (r2.1, r1.2 ++ r2.2)

/-- The two debug thoughts yielded once per run before the message loop
(lines 123 and 145 of `llm_agent.py`). -/
def initThoughts : List Event :=
  [Event.thought "Context object attributes", Event.thought "Using conversation ID"]

/-- One full run of the `llm_assistant` agent on a batch of input messages. -/
def llm_assistant (useMock : Bool) (cid : String)
    (batch : List (InMessage × CallOutcome)) (st : AgentState) :
    AgentState × List Event :=
  ((runBatch useMock cid batch st).1, initThoughts ++ (runBatch useMock cid batch st).2)

/-- The content of the terminal event emitted for one non-empty message. -/
def terminalText (useMock : Bool) : CallOutcome → String
  | CallOutcome.success text => text
  | CallOutcome.failure emsg ra =>
      if useMock && isRateLimitSignal (strLower emsg) then mockContent
      else classifyError emsg ra

/-- Scanner: every terminal event is preceded by a thought yielded after the
previous terminal event (so each message's terminal has its own preceding
progress notification). -/
def terminalsCovered : Bool → List Event → Bool
  | _, [] => true
  | _, Event.thought _ :: rest => terminalsCovered true rest
  | seen, Event.message _ _ :: rest => seen && terminalsCovered false rest

/-- A history list is in ascending timestamp order. -/
def tsOrdered (l : List Entry) : Prop := l.Pairwise (fun a b => a.ts ≤ b.ts)

theorem insertAsc_perm (e : Entry) (l : List Entry) : (insertAsc e l).Perm (e :: l) := by
  induction l with
  | nil => exact List.Perm.refl _
  | cons x xs ih =>
    simp only [insertAsc]
    split
    · exact (ih.cons x).trans (List.Perm.swap e x xs)
    · exact List.Perm.refl _

theorem sortAsc_perm (l : List Entry) : (sortAsc l).Perm l := by
  induction l with
  | nil => exact List.Perm.refl _
  | cons x xs ih => exact (insertAsc_perm x (sortAsc xs)).trans (ih.cons x)

theorem insertDesc_perm (e : Entry) (l : List Entry) : (insertDesc e l).Perm (e :: l) := by
  induction l with
  | nil => exact List.Perm.refl _
  | cons x xs ih =>
    simp only [insertDesc]
    split
    · exact (ih.cons x).trans (List.Perm.swap e x xs)
    · exact List.Perm.refl _

theorem sortDesc_perm (l : List Entry) : (sortDesc l).Perm l := by
  induction l with
  | nil => exact List.Perm.refl _
  | cons x xs ih => exact (insertDesc_perm x (sortDesc xs)).trans (ih.cons x)

theorem insertAsc_tsOrdered (e : Entry) {l : List Entry} (h : tsOrdered l) :
    tsOrdered (insertAsc e l) := by
  induction l with
  | nil =>
    simp only [insertAsc, tsOrdered]
    exact List.pairwise_singleton _ _
  | cons x xs ih =>
    obtain ⟨hx, hxs⟩ := List.pairwise_cons.mp h
    simp only [insertAsc]
    split
    next hlt =>
      refine List.pairwise_cons.mpr ⟨?_, ih hxs⟩
      intro b hb
      rcases List.mem_cons.mp ((insertAsc_perm e xs).mem_iff.mp hb) with rfl | hb2
      · exact Nat.le_of_lt hlt
      · exact hx b hb2
    next hge =>
      have hex : e.ts ≤ x.ts := Nat.le_of_not_lt hge
      refine List.pairwise_cons.mpr ⟨?_, h⟩
      intro b hb
      rcases List.mem_cons.mp hb with rfl | hb2
      · exact hex
      · exact le_trans hex (hx b hb2)

theorem sortAsc_tsOrdered (l : List Entry) : tsOrdered (sortAsc l) := by
  induction l with
  | nil => exact List.Pairwise.nil
  | cons x xs ih => exact insertAsc_tsOrdered x ih

theorem pySlice_subset {α : Type} (xs : List α) (k : Int) : pySlice xs k ⊆ xs := by
  unfold pySlice
  split
  · exact List.take_subset _ _
  · exact List.take_subset _ _

theorem pySlice_length_le {α : Type} (xs : List α) (k : Int) (hk : 0 ≤ k) :
    ((pySlice xs k).length : Int) ≤ k := by
  unfold pySlice
  rw [if_pos hk]
  calc ((xs.take k.toNat).length : Int) ≤ (k.toNat : Int) := by
        exact_mod_cast Nat.le_of_eq (List.length_take _ _) |>.trans (Nat.min_le_left _ _)
    _ = k := Int.toNat_of_nonneg hk

theorem pySlice_nil_of_nonpos {α : Type} (xs : List α) (k : Int) (hneg : k < 0)
    (hk : (xs.length : Int) + k ≤ 0) : pySlice xs k = [] := by
  unfold pySlice
  rw [if_neg (by omega)]
  have : ((xs.length : Int) + k).toNat = 0 := by omega
  rw [this, List.take_zero]

theorem evictList_subset (H : Nat) (h1 : List Entry) : ∀ e ∈ evictList H h1, e ∈ h1 := by
  intro e he
  have he2 := (sortAsc_perm _).mem_iff.mp he
  rcases List.mem_append.mp he2 with hs | hk
  · exact List.mem_of_mem_filter hs
  · exact List.mem_of_mem_filter ((sortDesc_perm _).mem_iff.mp (pySlice_subset _ _ hk))

theorem evictList_sys_mem (H : Nat) (h1 : List Entry) :
    ∀ e ∈ h1, e.isSys = true → e ∈ evictList H h1 := by
  intro e he hsys
  exact (sortAsc_perm _).mem_iff.mpr
    (List.mem_append_left _ (List.mem_filter.mpr ⟨he, hsys⟩))

theorem evictList_sysCount (H : Nat) (h1 : List Entry) :
    sysCount (evictList H h1) = sysCount h1 := by
  unfold evictList sysCount
  rw [((sortAsc_perm _).filter _).length_eq, List.filter_append]
  have h2 : (h1.filter Entry.isSys).filter Entry.isSys = h1.filter Entry.isSys :=
    List.filter_eq_self.mpr (fun a ha => (List.mem_filter.mp ha).2)
  have h3 : (pySlice (sortDesc (h1.filter (fun e => !e.isSys)))
      ((H : Int) - ((h1.filter Entry.isSys).length : Int))).filter Entry.isSys = [] := by
    refine List.filter_eq_nil_iff.mpr (fun a ha hpa => ?_)
    have : a ∈ h1.filter (fun e => !e.isSys) :=
      (sortDesc_perm _).mem_iff.mp (pySlice_subset _ _ ha)
    have := (List.mem_filter.mp this).2
    simp [hpa] at this
  rw [h2, h3]
  simp

theorem evictList_length_le (H : Nat) (h1 : List Entry) (hs1 : sysCount h1 ≤ H) :
    (evictList H h1).length ≤ H := by
  unfold evictList
  rw [(sortAsc_perm _).length_eq, List.length_append]
  have hk : (0 : Int) ≤ (H : Int) - ((h1.filter Entry.isSys).length : Int) := by
    have : (h1.filter Entry.isSys).length ≤ H := hs1
    omega
  have := pySlice_length_le (sortDesc (h1.filter (fun e => !e.isSys)))
    ((H : Int) - ((h1.filter Entry.isSys).length : Int)) hk
  have hsc : sysCount h1 = (h1.filter Entry.isSys).length := rfl
  omega

theorem evictList_length_big (H : Nat) (h1 : List Entry) (hs1 : H < sysCount h1)
    (hreg : (h1.filter (fun e => !e.isSys)).length + H ≤ sysCount h1) :
    (evictList H h1).length = sysCount h1 := by
  unfold evictList
  rw [(sortAsc_perm _).length_eq, List.length_append]
  have hsc : sysCount h1 = (h1.filter Entry.isSys).length := rfl
  have hlen : (sortDesc (h1.filter (fun e => !e.isSys))).length
      = (h1.filter (fun e => !e.isSys)).length := (sortDesc_perm _).length_eq
  rw [pySlice_nil_of_nonpos _ _ (by omega) (by omega)]
  simp [sysCount]

theorem evictList_tsOrdered (H : Nat) (h1 : List Entry) : tsOrdered (evictList H h1) := by
  unfold evictList
  exact sortAsc_tsOrdered _

theorem addHistory_subset {H : Nat} {h : List Entry} {ts : Nat} {m : Msg} {u : Bool} :
    ∀ e ∈ addHistory H h ts m u, e ∈ h ++ [Entry.mk ts m u] := by
  intro e he
  unfold addHistory at he
  split at he
  · exact evictList_subset _ _ e he
  · exact he

theorem addHistory_sys_mem {H : Nat} {h : List Entry} {ts : Nat} {m : Msg} {u : Bool} :
    ∀ e ∈ h, e.isSys = true → e ∈ addHistory H h ts m u := by
  intro e he hsys
  unfold addHistory
  split
  · exact evictList_sys_mem _ _ e (List.mem_append_left _ he) hsys
  · exact List.mem_append_left _ he

theorem addHistory_tsOrdered {H : Nat} {h : List Entry} {ts : Nat} {m : Msg} {u : Bool}
    (hord : tsOrdered h) (hlt : ∀ e ∈ h, e.ts < ts) :
    tsOrdered (addHistory H h ts m u) := by
  unfold addHistory
  split
  · exact evictList_tsOrdered _ _
  · refine List.pairwise_append.mpr ⟨hord, List.pairwise_singleton _ _, ?_⟩
    intro a ha b hb
    have hb' : b = Entry.mk ts m u := List.mem_singleton.mp hb
    subst hb'
    exact Nat.le_of_lt (hlt a ha)

theorem addHistory_ts_lt {H : Nat} {h : List Entry} {ts : Nat} {m : Msg} {u : Bool}
    (hlt : ∀ e ∈ h, e.ts < ts) :
    ∀ e ∈ addHistory H h ts m u, e.ts < ts + 1 := by
  intro e he
  rcases List.mem_append.mp (addHistory_subset e he) with hh | hx
  · exact Nat.lt_succ_of_lt (hlt e hh)
  · rw [List.mem_singleton.mp hx]
    exact Nat.lt_succ_self ts

theorem sysCount_append (l₁ l₂ : List Entry) :
    sysCount (l₁ ++ l₂) = sysCount l₁ + sysCount l₂ := by
  simp [sysCount, List.filter_append]

/-- One append preserves the (amended) retention bound
`length ≤ max H (number of system entries)`. -/
theorem addHistory_len {H : Nat} {h : List Entry} {ts : Nat} {m : Msg} {u : Bool}
    (hInv : h.length ≤ max H (sysCount h)) :
    (addHistory H h ts m u).length ≤ max H (sysCount (addHistory H h ts m u)) := by
  unfold addHistory
  split
  next hgt =>
    by_cases hs1 : sysCount (h ++ [Entry.mk ts m u]) ≤ H
    · exact le_trans (evictList_length_le H _ hs1) (le_max_left _ _)
    · push_neg at hs1
      have hsys_app := sysCount_append h [Entry.mk ts m u]
      have hx1 : sysCount [Entry.mk ts m u] ≤ 1 := by
        unfold sysCount
        by_cases hx : (Entry.mk ts m u).isSys <;> simp [hx]
      have hshH : H ≤ sysCount h := by omega
      have hhs : sysCount h ≤ h.length := List.length_filter_le _ _
      have hlenh : h.length = sysCount h := by
        have hm : max H (sysCount h) = sysCount h := max_eq_right hshH
        omega
      have hfull : h.filter Entry.isSys = h :=
        (List.filter_sublist _).eq_of_length hlenh.symm
      have hregh : h.filter (fun e => !e.isSys) = [] := by
        refine List.filter_eq_nil_iff.mpr (fun a ha hba => ?_)
        have := List.filter_eq_self.mp hfull a ha
        simp [this] at hba
      have hreg1 : (h ++ [Entry.mk ts m u]).filter (fun e => !e.isSys)
          = [Entry.mk ts m u].filter (fun e => !e.isSys) := by
        rw [List.filter_append, hregh]
        simp
      have hreg : ((h ++ [Entry.mk ts m u]).filter (fun e => !e.isSys)).length + H
          ≤ sysCount (h ++ [Entry.mk ts m u]) := by
        rw [hreg1]
        by_cases hx : (Entry.mk ts m u).isSys
        · have h0 : ([Entry.mk ts m u].filter (fun e => !e.isSys)).length = 0 := by
            simp [hx]
          have h1 : sysCount [Entry.mk ts m u] = 1 := by
            unfold sysCount; simp [hx]
          omega
        · have hxf : (Entry.mk ts m u).isSys = false := by
            revert hx; cases hb : (Entry.mk ts m u).isSys <;> simp
          have h0 : ([Entry.mk ts m u].filter (fun e => !e.isSys)).length = 1 := by
            simp [hxf]
          have h1 : sysCount [Entry.mk ts m u] = 0 := by
            unfold sysCount
            simp [hxf]
          omega
      rw [evictList_length_big H _ hs1 hreg, evictList_sysCount]
      exact le_max_right _ _
  next hle =>
    push_neg at hle
    exact le_trans hle (le_max_left _ _)

/-- Every per-session invariant preserved by a single timestamped append holds
in every state reachable by a sequence of clocked appends. -/
theorem applyOps_inv (H : Nat) (Q : List Entry → Nat → Prop)
    (hstep : ∀ h ts m u, Q h ts → Q (addHistory H h ts m u) (ts + 1))
    (hweak : ∀ h t, Q h t → Q h (t + 1)) :
    ∀ (ops : List AppendOp) (st : Store) (clock : Nat),
      (∀ c, Q (st c) clock) →
      ∀ c, Q ((applyOps H ops (st, clock)).1 c) (applyOps H ops (st, clock)).2 := by
  intro ops
  induction ops with
  | nil => intro st clock hst c; exact hst c
  | cons op rest ih =>
    intro st clock hst c
    have hst' : ∀ c, Q ((add_to_conversation_history H st op.cid clock op.m op.u) c)
        (clock + 1) := by
      intro c
      by_cases hc : c = op.cid
      · simp only [add_to_conversation_history, if_pos hc]
        exact hstep _ _ _ _ (hst op.cid)
      · simp only [add_to_conversation_history, if_neg hc]
        exact hweak _ _ (hst c)
    exact ih _ _ hst' c

/-- Appends to other sessions never touch a session's list. -/
theorem applyOps_frame (H : Nat) (ops : List AppendOp) (st : Store) (clock : Nat)
    (cid : String) (hops : ∀ op ∈ ops, op.cid ≠ cid) :
    (applyOps H ops (st, clock)).1 cid = st cid := by
  induction ops generalizing st clock with
  | nil => rfl
  | cons op rest ih =>
    have h1 : (add_to_conversation_history H st op.cid clock op.m op.u) cid = st cid := by
      simp only [add_to_conversation_history]
      rw [if_neg (fun hc => hops op (List.mem_cons_self op rest) hc.symm)]
    calc (applyOps H rest
          (add_to_conversation_history H st op.cid clock op.m op.u, clock + 1)).1 cid
        = (add_to_conversation_history H st op.cid clock op.m op.u) cid :=
          ih _ _ (fun op' h' => hops op' (List.mem_cons_of_mem _ h'))
      _ = st cid := h1

/-- **C1 (counterexample).**  The retention bound `len(read(session_id)) ≤
MAX_HISTORY_LENGTH` fails on the code: assistant replies are stored as
`SystemMessage` with `is_user = False`, so they count as system messages and
are never evicted.  Eleven system-message appends to session `"s"` leave a
history of length 11 > 10. -/
theorem C1_counterexample :
    (((applyOps MAX_HISTORY_LENGTH
        ((List.range 11).map (fun _ => AppendOp.mk "s" (Msg.system "m") false))
        (emptyStore, 0)).1) "s").length > MAX_HISTORY_LENGTH := by decide

/-- **C1 (amended).**  After any sequence of appends, the length of a session's
history is at most `max MAX_HISTORY_LENGTH (number of system entries stored)`
— the configured bound holds whenever the system entries fit inside it — and
every system-role entry present before an append (hence before any eviction it
triggers) is still present after it. -/
theorem C1_retention_amended (ops : List AppendOp) (cid : String) :
    (((applyOps MAX_HISTORY_LENGTH ops (emptyStore, 0)).1 cid).length
        ≤ max MAX_HISTORY_LENGTH
            (sysCount ((applyOps MAX_HISTORY_LENGTH ops (emptyStore, 0)).1 cid)))
    ∧ (∀ (H : Nat) (st : Store) (c : String) (ts : Nat) (m : Msg) (u : Bool),
        ∀ e ∈ st c, e.isSys = true →
          e ∈ add_to_conversation_history H st c ts m u c) := by
  constructor
  · exact applyOps_inv MAX_HISTORY_LENGTH
      (fun h _ => h.length ≤ max MAX_HISTORY_LENGTH (sysCount h))
      (fun h ts m u hq => addHistory_len hq) (fun h t hq => hq) ops emptyStore 0
      (fun c => Nat.zero_le _) cid
  · intro H st c ts m u e he hsys
    simp only [add_to_conversation_history, if_pos rfl]
    exact addHistory_sys_mem e he hsys

/-- Witness for `C1_retention_amended`: a concrete system entry survives an
append that triggers eviction (`H = 1`). -/
theorem C1_retention_amended_witness :
    Entry.mk 0 (Msg.system "a") false ∈
      add_to_conversation_history 1 (fun _ => [Entry.mk 0 (Msg.system "a") false])
        "s" 1 (Msg.user "b") true "s" :=
  (C1_retention_amended [] "s").2 1 (fun _ => [Entry.mk 0 (Msg.system "a") false])
    "s" 1 (Msg.user "b") true (Entry.mk 0 (Msg.system "a") false) (by decide) (by decide)

/-- **C2.**  Eviction scenario with `max_history_turns = 3` and the system
prompt stored as a turn of session `"s1"`: after user turns `"hi"`, `"bye"`,
`"ok"` the history is `[sys, user "bye", user "ok"]`; after `"hi"` it is
`[sys, user "hi"]`; after `"bye"` it is `[sys, user "hi", user "bye"]` with no
eviction; appending `"ok"` evicts exactly the oldest user turn `"hi"`. -/
theorem C2_eviction_scenario :
    (let st0 := add_to_conversation_history 3 emptyStore "s1" 0
        (Msg.system "Be helpful.") false
     let st1 := add_to_conversation_history 3 st0 "s1" 1 (Msg.user "hi") true
     let st2 := add_to_conversation_history 3 st1 "s1" 2 (Msg.user "bye") true
     let st3 := add_to_conversation_history 3 st2 "s1" 3 (Msg.user "ok") true
     st1 "s1" = [Entry.mk 0 (Msg.system "Be helpful.") false,
         Entry.mk 1 (Msg.user "hi") true]
     ∧ st2 "s1" = [Entry.mk 0 (Msg.system "Be helpful.") false,
         Entry.mk 1 (Msg.user "hi") true, Entry.mk 2 (Msg.user "bye") true]
     ∧ st3 "s1" = [Entry.mk 0 (Msg.system "Be helpful.") false,
         Entry.mk 2 (Msg.user "bye") true, Entry.mk 3 (Msg.user "ok") true]) := by
  decide

/-- **C7.**  In every state reachable by clocked appends, a session's stored
turns are sorted ascending by timestamp, `get_conversation_messages` returns
exactly those turns' messages in that order, and for a session id that no
append ever named it returns the empty list rather than failing. -/
theorem C7_order_preservation (ops : List AppendOp) (cid : String) :
    tsOrdered ((applyOps MAX_HISTORY_LENGTH ops (emptyStore, 0)).1 cid)
    ∧ get_conversation_messages ((applyOps MAX_HISTORY_LENGTH ops (emptyStore, 0)).1) cid
        = ((applyOps MAX_HISTORY_LENGTH ops (emptyStore, 0)).1 cid).map Entry.msg
    ∧ ((∀ op ∈ ops, op.cid ≠ cid) →
        get_conversation_messages ((applyOps MAX_HISTORY_LENGTH ops (emptyStore, 0)).1) cid
          = []) := by
  refine ⟨?_, rfl, ?_⟩
  · exact (applyOps_inv MAX_HISTORY_LENGTH
      (fun h t => tsOrdered h ∧ ∀ e ∈ h, e.ts < t)
      (fun h ts m u hq => ⟨addHistory_tsOrdered hq.1 hq.2, addHistory_ts_lt hq.2⟩)
      (fun h t hq => ⟨hq.1, fun e he => Nat.lt_succ_of_lt (hq.2 e he)⟩)
      ops emptyStore 0
      (fun c => ⟨List.Pairwise.nil, fun e he => absurd he (List.not_mem_nil e)⟩) cid).1
  · intro hops
    unfold get_conversation_messages
    rw [applyOps_frame MAX_HISTORY_LENGTH ops emptyStore 0 cid hops]
    rfl

/-- Witness for `C7_order_preservation`: appends to session `"a"` leave the
unknown session `"b"` empty. -/
theorem C7_order_preservation_witness :
    get_conversation_messages
      ((applyOps MAX_HISTORY_LENGTH [AppendOp.mk "a" (Msg.user "x") true]
        (emptyStore, 0)).1) "b" = [] :=
  (C7_order_preservation [AppendOp.mk "a" (Msg.user "x") true] "b").2.2 (by decide)

/-- The entry just appended is retained whenever it counts as a system
message (system messages are never evicted). -/
theorem addHistory_new_sys_mem {H : Nat} {h : List Entry} {ts : Nat} {m : Msg} {u : Bool}
    (hsys : (Entry.mk ts m u).isSys = true) :
    Entry.mk ts m u ∈ addHistory H h ts m u := by
  unfold addHistory
  split
  · exact evictList_sys_mem _ _ _
      (List.mem_append_right _ (List.mem_singleton.mpr rfl)) hsys
  · exact List.mem_append_right _ (List.mem_singleton.mpr rfl)

/-- The events of one non-empty message: the progress thoughts followed by
exactly one terminal event carrying `terminalText`. -/
theorem processNonEmpty_events (u : Bool) (cid content : String) (o : CallOutcome)
    (st : AgentState) :
    (processNonEmpty u cid content o st).2
      = preThoughts ++ [Event.message "agent" (terminalText u o)] := by
  cases o with
  | success text => rfl
  | failure emsg ra =>
    simp only [processNonEmpty, terminalText]
    by_cases hc : (u && isRateLimitSignal (strLower emsg)) = true
    · simp [hc]
    · simp [hc]

/-- The events of a batch are the per-message blocks of its non-empty
messages, in input order. -/
theorem runBatch_events (u : Bool) (cid : String) :
    ∀ (batch : List (InMessage × CallOutcome)) (st : AgentState),
    (runBatch u cid batch st).2
      = (batch.filter (fun p => !(extractContent p.1 == ""))).flatMap
          (fun p => preThoughts ++ [Event.message "agent" (terminalText u p.2)]) := by
  intro batch
  induction batch with
  | nil => intro st; rfl
  | cons p rest ih =>
    intro st
    obtain ⟨m, o⟩ := p
    by_cases hm : extractContent m = ""
    · simp only [runBatch, if_pos hm]
      rw [ih st]
      have : (!(extractContent m == "")) = false := by simp [hm]
      simp [List.filter_cons, this]
    · simp only [runBatch, if_neg hm]
      have : (!(extractContent m == "")) = true := by simp [hm]
      simp only [List.filter_cons, this, if_pos]
      rw [List.flatMap_cons, ← ih, processNonEmpty_events]

theorem blocks_filter (u : Bool) (l : List (InMessage × CallOutcome)) :
    (l.flatMap (fun p => preThoughts ++ [Event.message "agent" (terminalText u p.2)])).filter
        Event.isTerminal
      = l.map (fun p => Event.message "agent" (terminalText u p.2)) := by
  induction l with
  | nil => rfl
  | cons p rest ih =>
    rw [List.flatMap_cons, List.filter_append, ih]
    rfl

theorem covered_blocks (u : Bool) (l : List (InMessage × CallOutcome)) :
    ∀ s : Bool,
      terminalsCovered s (l.flatMap
        (fun p => preThoughts ++ [Event.message "agent" (terminalText u p.2)])) = true := by
  induction l with
  | nil => intro s; rfl
  | cons p rest ih =>
    intro s
    rw [List.flatMap_cons]
    show terminalsCovered s
      (Event.thought "Processing request using GitHub AI model..."
        :: Event.thought "Sending messages to the GitHub AI API..."
        :: Event.message "agent" (terminalText u p.2)
        :: rest.flatMap (fun p => preThoughts ++ [Event.message "agent" (terminalText u p.2)]))
      = true
    rw [terminalsCovered, terminalsCovered, terminalsCovered]
    simp [ih false]

/-- **C3.**  When the external call fails with a rate-limit signal and
fallback mode is enabled (the repository constant `USE_MOCK_WHEN_RATE_LIMITED`),
the terminal event is a success message carrying the placeholder text, that
text begins with the fixed marker `[MOCK RESPONSE FOR EDUCATIONAL PURPOSES]`
distinguishing it from genuine completion text, and the placeholder is stored
in the session history as a system-role turn. -/
theorem C3_rate_limit_fallback (st : AgentState) (cid content emsg : String)
    (ra : Option String) (hrl : isRateLimitSignal (strLower emsg) = true) :
    (processNonEmpty USE_MOCK_WHEN_RATE_LIMITED cid content
        (CallOutcome.failure emsg ra) st).2
        = preThoughts ++ [Event.message "agent" mockContent]
    ∧ strBegins mockContent "[MOCK RESPONSE FOR EDUCATIONAL PURPOSES]" = true
    ∧ Entry.mk (st.clock + 1) (Msg.system mockContent) false
        ∈ (processNonEmpty USE_MOCK_WHEN_RATE_LIMITED cid content
            (CallOutcome.failure emsg ra) st).1.hist cid := by
  have hc : (USE_MOCK_WHEN_RATE_LIMITED && isRateLimitSignal (strLower emsg)) = true := by
    rw [hrl]
    rfl
  refine ⟨by simp [processNonEmpty, hc], by decide, ?_⟩
  simp only [processNonEmpty, hc, if_pos]
  simp only [add_to_conversation_history, if_pos rfl]
  exact addHistory_new_sys_mem rfl

/-- Witness for `C3_rate_limit_fallback` at a concrete rate-limit failure. -/
theorem C3_rate_limit_fallback_witness :
    Entry.mk 1 (Msg.system mockContent) false
      ∈ (processNonEmpty USE_MOCK_WHEN_RATE_LIMITED "s" "hi"
          (CallOutcome.failure "rate limit exceeded" none) ⟨emptyStore, 0⟩).1.hist "s" :=
  (C3_rate_limit_fallback ⟨emptyStore, 0⟩ "s" "hi" "rate limit exceeded" none
    (by decide)).2.2

/-- **C4.**  A failure containing `"429"` with no retry-after header, with
fallback disabled: the run state ends exactly at the user-turn append (no
fabricated reply turn is stored) and the terminal event is the generic
rate-limit error text. -/
theorem C4_rate_limit_no_fallback (st : AgentState) (cid content emsg : String)
    (h429 : strHas (strLower emsg) "429" = true) :
    processNonEmpty false cid content (CallOutcome.failure emsg none) st
      = (⟨add_to_conversation_history MAX_HISTORY_LENGTH st.hist cid st.clock
            (Msg.user content) true, st.clock + 1⟩,
         preThoughts ++ [Event.message "agent"
           "The GitHub AI API rate limit has been exceeded. Please try again later."]) := by
  have hrl : isRateLimitSignal (strLower emsg) = true := by
    unfold isRateLimitSignal
    rw [h429]
    rfl
  simp [processNonEmpty, classifyError, hrl]

/-- Witness for `C4_rate_limit_no_fallback` at a concrete `429` failure. -/
theorem C4_rate_limit_no_fallback_witness :
    processNonEmpty false "s" "hi"
        (CallOutcome.failure "Error 429 Too Many Requests" none) ⟨emptyStore, 0⟩
      = (⟨add_to_conversation_history MAX_HISTORY_LENGTH emptyStore "s" 0
            (Msg.user "hi") true, 1⟩,
         preThoughts ++ [Event.message "agent"
           "The GitHub AI API rate limit has been exceeded. Please try again later."]) :=
  C4_rate_limit_no_fallback ⟨emptyStore, 0⟩ "s" "hi" "Error 429 Too Many Requests"
    (by decide)

/-- **C5.**  For any batch, the terminal events are exactly one per non-empty
message, in input order (they are the pointwise image of the non-empty
messages), so their number is the number of non-empty messages, and every
terminal event is preceded by a progress thought emitted after the previous
terminal event.  `runBatch` is a total function, so no failure of the external
call escapes the pipeline. -/
theorem C5_event_ordering (useMock : Bool) (cid : String)
    (batch : List (InMessage × CallOutcome)) (st : AgentState) :
    ((llm_assistant useMock cid batch st).2.filter Event.isTerminal
        = (batch.filter (fun p => !(extractContent p.1 == ""))).map
            (fun p => Event.message "agent" (terminalText useMock p.2)))
    ∧ ((llm_assistant useMock cid batch st).2.filter Event.isTerminal).length
        = (batch.filter (fun p => !(extractContent p.1 == ""))).length
    ∧ terminalsCovered false (llm_assistant useMock cid batch st).2 = true := by
  have hev : (llm_assistant useMock cid batch st).2
      = initThoughts ++ (batch.filter (fun p => !(extractContent p.1 == ""))).flatMap
          (fun p => preThoughts ++ [Event.message "agent" (terminalText useMock p.2)]) := by
    unfold llm_assistant
    rw [runBatch_events]
  have h1 : (llm_assistant useMock cid batch st).2.filter Event.isTerminal
      = (batch.filter (fun p => !(extractContent p.1 == ""))).map
          (fun p => Event.message "agent" (terminalText useMock p.2)) := by
    rw [hev, List.filter_append, blocks_filter]
    rfl
  refine ⟨h1, ?_, ?_⟩
  · rw [h1, List.length_map]
  · rw [hev]
    simp only [initThoughts, List.cons_append, List.nil_append, terminalsCovered]
    exact covered_blocks useMock _ true

/-- **C6.**  The terminal error event carries the classified message, and the
classification follows the priority order of the `except` handler: rate-limit
signal (with the retry hint interpolated when present and non-empty, the
generic text otherwise), then timeout, then the fixed authentication text
(a constant that never echoes the credential), then the raw failure
description. -/
theorem C6_failure_classification (emsg : String) (ra : Option String)
    (st : AgentState) (cid content : String) :
    ((processNonEmpty false cid content (CallOutcome.failure emsg ra) st).2
        = preThoughts ++ [Event.message "agent" (classifyError emsg ra)])
    ∧ (∀ r, isRateLimitSignal (strLower emsg) = true → ra = some r → r ≠ "" →
        classifyError emsg ra
          = "The GitHub AI API rate limit has been exceeded. Please try again in "
              ++ r ++ " seconds.")
    ∧ (isRateLimitSignal (strLower emsg) = true → ra = none →
        classifyError emsg ra
          = "The GitHub AI API rate limit has been exceeded. Please try again later.")
    ∧ (isRateLimitSignal (strLower emsg) = false →
        strHas (strLower emsg) "timeout" = true →
        classifyError emsg ra
          = "The request timed out. This might be due to high server load or network issues.")
    ∧ (isRateLimitSignal (strLower emsg) = false →
        strHas (strLower emsg) "timeout" = false →
        (strHas (strLower emsg) "token" || strHas (strLower emsg) "authentication"
          || strHas (strLower emsg) "auth") = true →
        classifyError emsg ra
          = "There seems to be an authentication issue. Please check your GitHub token.")
    ∧ (isRateLimitSignal (strLower emsg) = false →
        strHas (strLower emsg) "timeout" = false →
        (strHas (strLower emsg) "token" || strHas (strLower emsg) "authentication"
          || strHas (strLower emsg) "auth") = false →
        classifyError emsg ra = "Error calling GitHub AI model: " ++ emsg) := by
  refine ⟨by simp [processNonEmpty], ?_, ?_, ?_, ?_, ?_⟩
  · intro r h1 h2 h3
    subst h2
    simp [classifyError, h1, h3]
  · intro h1 h2
    subst h2
    simp [classifyError, h1]
  · intro h1 h2
    simp [classifyError, h1, h2]
  · intro h1 h2 h3
    simp [classifyError, h1, h2, h3]
  · intro h1 h2 h3
    simp [classifyError, h1, h2, h3]

/-- Witness for `C6_failure_classification`: a concrete timeout failure gets
the timeout message. -/
theorem C6_failure_classification_witness :
    classifyError "Connection timeout" none
      = "The request timed out. This might be due to high server load or network issues." :=
  (C6_failure_classification "Connection timeout" none ⟨emptyStore, 0⟩ "s" "hi").2.2.2.1
    (by decide) (by decide)

/-- **C8.**  A message with no plain-text content is a deliberate no-op: the
batch behaves exactly as if the message were absent — no turn, no event, and
the (unused) call outcome shows no invocation occurs. -/
theorem C8_empty_noop (useMock : Bool) (cid : String) (m : InMessage) (o : CallOutcome)
    (rest : List (InMessage × CallOutcome)) (st : AgentState)
    (hm : extractContent m = "") :
    runBatch useMock cid ((m, o) :: rest) st = runBatch useMock cid rest st := by
  simp only [runBatch, if_pos hm]

/-- Witness for `C8_empty_noop`: a message whose only part is not plain text. -/
theorem C8_empty_noop_witness :
    runBatch USE_MOCK_WHEN_RATE_LIMITED "s"
        [(InMessage.mk [MessagePart.mk "image/png" "blob"], CallOutcome.success "ok")]
        ⟨emptyStore, 0⟩
      = runBatch USE_MOCK_WHEN_RATE_LIMITED "s" [] ⟨emptyStore, 0⟩ :=
  C8_empty_noop USE_MOCK_WHEN_RATE_LIMITED "s"
    (InMessage.mk [MessagePart.mk "image/png" "blob"]) (CallOutcome.success "ok") []
    ⟨emptyStore, 0⟩ (by decide)

/-- **C9.**  When the external call fails and the mock fallback does not fire,
the resulting state is exactly the user-turn append (no reply turn is stored)
together with the terminal error event, and the history of every other session
is untouched. -/
theorem C9_no_rollback (useMock : Bool) (cid content emsg : String) (ra : Option String)
    (st : AgentState)
    (hnm : (useMock && isRateLimitSignal (strLower emsg)) = false) :
    (processNonEmpty useMock cid content (CallOutcome.failure emsg ra) st
      = (⟨add_to_conversation_history MAX_HISTORY_LENGTH st.hist cid st.clock
            (Msg.user content) true, st.clock + 1⟩,
          preThoughts ++ [Event.message "agent" (classifyError emsg ra)]))
    ∧ ∀ c, c ≠ cid →
        (processNonEmpty useMock cid content (CallOutcome.failure emsg ra) st).1.hist c
          = st.hist c := by
  have h1 : processNonEmpty useMock cid content (CallOutcome.failure emsg ra) st
      = (⟨add_to_conversation_history MAX_HISTORY_LENGTH st.hist cid st.clock
            (Msg.user content) true, st.clock + 1⟩,
          preThoughts ++ [Event.message "agent" (classifyError emsg ra)]) := by
    simp [processNonEmpty, hnm]
  refine ⟨h1, ?_⟩
  intro c hc
  rw [h1]
  simp only [add_to_conversation_history]
  rw [if_neg hc]

/-- Witness for `C9_no_rollback`: a concrete non-rate-limit failure leaves the
session `"t"` empty. -/
theorem C9_no_rollback_witness :
    (processNonEmpty USE_MOCK_WHEN_RATE_LIMITED "s" "hi"
        (CallOutcome.failure "boom" none) ⟨emptyStore, 0⟩).1.hist "t" = emptyStore "t" :=
  (C9_no_rollback USE_MOCK_WHEN_RATE_LIMITED "s" "hi" "boom" none ⟨emptyStore, 0⟩
    (by decide)).2 "t" (by decide)

/-- **C10.**  Any failure whose lowercased text contains `"token"` but none of
`"429"`, `"rate limit"`, `"timeout"` is reported with the fixed authentication
message, whether or not it concerns credentials. -/
theorem C10_token_substring (useMock : Bool) (st : AgentState)
    (cid content emsg : String) (ra : Option String)
    (htok : strHas (strLower emsg) "token" = true)
    (h429 : strHas (strLower emsg) "429" = false)
    (hrl : strHas (strLower emsg) "rate limit" = false)
    (hto : strHas (strLower emsg) "timeout" = false) :
    (processNonEmpty useMock cid content (CallOutcome.failure emsg ra) st).2
      = preThoughts ++ [Event.message "agent"
          "There seems to be an authentication issue. Please check your GitHub token."] := by
  have hsig : isRateLimitSignal (strLower emsg) = false := by
    unfold isRateLimitSignal
    rw [h429, hrl]
    rfl
  have hmock : (useMock && isRateLimitSignal (strLower emsg)) = false := by
    rw [hsig]
    simp
  simp [processNonEmpty, hmock, classifyError, hsig, hto, htok]

/-- Witness for `C10_token_substring`: a failure about a token-ring network —
nothing to do with credentials — still gets the authentication message. -/
theorem C10_token_substring_witness :
    (processNonEmpty USE_MOCK_WHEN_RATE_LIMITED "s" "hi"
        (CallOutcome.failure "Token ring network failure" none) ⟨emptyStore, 0⟩).2
      = preThoughts ++ [Event.message "agent"
          "There seems to be an authentication issue. Please check your GitHub token."] :=
  C10_token_substring USE_MOCK_WHEN_RATE_LIMITED ⟨emptyStore, 0⟩ "s" "hi"
    "Token ring network failure" none (by decide) (by decide) (by decide) (by decide)

end ACPAgent
